import Mathlib

/-!
Verification of the binding and layout resolver of the wgsl_bindgen repository.

The definitions below are a shallow embedding of the Rust sources
`src/wgsl_bindgen/src/generate/bind_group/mod.rs` and
`src/wgsl_bindgen/src/lib.rs`.  The shader-module input types mirror the
naga intermediate representation exactly as far as the embedded functions
inspect them; fields the code never reads are kept where they influence
equality of records and dropped where they are pure payload of external
collaborators.  Functions whose source file is not part of the provided
sources (src/wgsl.rs) are modelled from the specification and say so in
their doc comments.
-/

namespace WgslBindgen

open List

/-- Scalar kinds of the naga IR (`naga::ScalarKind`). The classifier in
`bind_group_layout_entry` matches `Sint`, `Uint` and `Float` and panics on
every other kind when it appears as a sampled-image kind. -/
inductive ScalarKind
  | sint
  | uint
  | float
  | bool
  | abstractInt
  | abstractFloat
deriving DecidableEq, Repr

/-- A naga scalar: kind together with byte width (`naga::Scalar`). -/
structure Scalar where
  kind : ScalarKind
  width : Nat
deriving DecidableEq, Repr

/-- Vector sizes of the naga IR (`naga::VectorSize`). -/
inductive VectorSize
  | bi
  | tri
  | quad
deriving DecidableEq, Repr

/-- Number of components of a vector size. -/
def VectorSize.toNat : VectorSize → Nat
  | .bi => 2
  | .tri => 3
  | .quad => 4

/-- Image dimensions of the naga IR (`naga::ImageDimension`). -/
inductive ImageDimension
  | d1
  | d2
  | d3
  | cube
deriving DecidableEq, Repr

/-- Storage access flags of the naga IR (`naga::StorageAccess`), a bitflag
pair of LOAD and STORE. -/
structure StorageAccess where
  load : Bool
  store : Bool
deriving DecidableEq, Repr

/-- Image classes of the naga IR (`naga::ImageClass`).  The storage format
is represented by its variant name (a string), because the Rust code only
ever consumes the Debug rendering of the format
(`format!("{format:?}")` in `bind_group_layout_entry`). -/
inductive ImageClass
  | sampled (kind : ScalarKind) (multi : Bool)
  | depth (multi : Bool)
  | storage (format : String) (access : StorageAccess)
deriving DecidableEq, Repr

/-- Type interiors of the naga IR (`naga::TypeInner`) with the payloads the
embedded code inspects.  Struct members and array bases are payload of the
struct-generation component, which the classifier ignores (it matches
`Struct { .. }` and `Array { .. }`), so they are not carried here. -/
inductive TypeInner
  | scalar (s : Scalar)
  | vector (size : VectorSize) (s : Scalar)
  | matrix (columns rows : VectorSize) (s : Scalar)
  | atomic (s : Scalar)
  | pointer
  | array
  | struct
  | image (dim : ImageDimension) (arrayed : Bool) (cls : ImageClass)
  | sampler (comparison : Bool)
  | accelerationStructure
  | bindingArray
deriving DecidableEq, Repr

/-- A naga type: optional name plus interior (`naga::Type`). -/
structure NagaType where
  name : Option String
  inner : TypeInner
deriving DecidableEq, Repr

/-- Address spaces of the naga IR (`naga::AddressSpace`). -/
inductive AddressSpace
  | function
  | privateSpace
  | workGroup
  | uniform
  | storage (access : StorageAccess)
  | handle
  | pushConstant
deriving DecidableEq, Repr

/-- A resource binding of the naga IR (`naga::ResourceBinding`): the
`@group(g) @binding(b)` pair of a global variable. -/
structure ResourceBinding where
  group : Nat
  binding : Nat
deriving DecidableEq, Repr

/-- A global variable declaration (`naga::GlobalVariable`).  The Rust code
reads the type through a handle (`module.types[global.ty]`); the embedding
inlines the resolved type. -/
structure GlobalVariable where
  name : Option String
  space : AddressSpace
  binding : Option ResourceBinding
  ty : NagaType
deriving DecidableEq, Repr

/-- Shader stages (`naga::ShaderStage`). -/
inductive ShaderStage
  | vertex
  | fragment
  | compute
deriving DecidableEq, Repr

/-- A member of a vertex input struct, as consumed by
`vertex_input_structs` in lib.rs: name and type of the field. -/
structure VertexStructField where
  name : Option String
  ty : TypeInner
deriving DecidableEq, Repr

/-- A vertex input struct: its name and its fields, each tagged with the
declared location index (the `(u32, StructMember)` pairs iterated by
`vertex_input_structs` in lib.rs). -/
structure VertexStructDef where
  name : String
  fields : List (Nat × VertexStructField)
deriving DecidableEq, Repr

/-- An entry point (`naga::EntryPoint`).  The discovery of struct-typed
vertex input parameters happens in `get_vertex_input_structs`
(src/wgsl.rs, absent from the provided sources); here each vertex entry
point carries the struct definitions of its struct-typed inputs directly. -/
structure EntryPoint where
  name : String
  stage : ShaderStage
  vertexInputs : List VertexStructDef
deriving DecidableEq, Repr

/-- A shader module (`naga::Module`), restricted to the collections the
embedded functions read: global variables and entry points, in declaration
order. -/
structure Module where
  globalVariables : List GlobalVariable
  entryPoints : List EntryPoint
deriving DecidableEq, Repr

/-- The error enum of lib.rs lines 77-88 (`CreateModuleError`).  Its only
variants are `NonConsecutiveBindGroups` and `DuplicateBinding`. -/
inductive CreateModuleError
  | nonConsecutiveBindGroups
  | duplicateBinding (binding : Nat)
deriving DecidableEq, Repr

/-- One resolved binding (`GroupBinding` in bind_group/mod.rs): name of the
global, binding index, resolved type, address space. -/
structure GroupBinding where
  name : Option String
  bindingIndex : Nat
  bindingType : NagaType
  addressSpace : AddressSpace
deriving DecidableEq, Repr

/-- The bindings of one group (`GroupData` in bind_group/mod.rs). -/
abbrev GroupData := List GroupBinding

/-- The group map.  The Rust code uses a `BTreeMap<u32, GroupData>`; the
embedding represents it as an association list kept sorted by strictly
ascending group key, which is the iteration order of the BTreeMap. -/
abbrev GroupMap := List (Nat × GroupData)

/-- Insertion of one resolved binding into the group map, following the body
of the loop of `get_bind_group_data`: find or create the bucket of the
group key (`groups.entry(binding.group).or_insert(..)`), fail with
`DuplicateBinding` when the bucket already holds the binding index
(`group.bindings.iter().any(|g| g.binding_index == binding.binding)`),
otherwise push at the end of the bucket. -/
def insertBinding (k : Nat) (gb : GroupBinding) :
    GroupMap → Except CreateModuleError GroupMap
  | [] => .ok [(k, [gb])]
  | (k', bs) :: rest =>
    if k < k' then
      .ok ((k, [gb]) :: (k', bs) :: rest)
    else if k = k' then
      if bs.any (fun g => g.bindingIndex == gb.bindingIndex) then
        .error (.duplicateBinding gb.bindingIndex)
      else
        .ok ((k', bs ++ [gb]) :: rest)
    else
      match insertBinding k gb rest with
      | .ok rest' => .ok ((k', bs) :: rest')
      | .error e => .error e

/-- The resolved record built for a bound global in the loop of
`get_bind_group_data`. -/
def toGroupBinding (p : GlobalVariable × ResourceBinding) : GroupBinding :=
  { name := p.1.name
    bindingIndex := p.2.binding
    bindingType := p.1.ty
    addressSpace := p.1.space }

/-- The loop of `get_bind_group_data`: iterate the global variables in
declaration order, skip unbound ones, insert each bound one. -/
def processGlobals : List GlobalVariable → GroupMap →
    Except CreateModuleError GroupMap
  | [], acc => .ok acc
  | g :: gs, acc =>
    match g.binding with
    | none => processGlobals gs acc
    | some rb =>
      match insertBinding rb.group (toGroupBinding (g, rb)) acc with
      | .ok acc' => processGlobals gs acc'
      | .error e => .error e

/-- Embedding of `get_bind_group_data` (bind_group/mod.rs lines 349-391):
bucket the bound globals by group, then require the ascending key sequence
to equal `0 .. groups.len()` (the Rust check
`groups.keys().map(|i| *i as usize).eq(0..groups.len())`), failing with
`NonConsecutiveBindGroups` otherwise. -/
def get_bind_group_data (m : Module) : Except CreateModuleError GroupMap :=
  match processGlobals m.globalVariables [] with
  | .error e => .error e
  | .ok groups =>
    if groups.map Prod.fst = List.range groups.length then
      .ok groups
    else
      .error .nonConsecutiveBindGroups

/-- Boolean success test for an Except value. -/
def okB {ε α : Type} : Except ε α → Bool
  | .ok _ => true
  | .error _ => false

/-- The bound globals of a declaration list, in order, paired with their
resource bindings. -/
def boundEntriesOf (gs : List GlobalVariable) :
    List (GlobalVariable × ResourceBinding) :=
  gs.filterMap fun g => g.binding.map fun rb => (g, rb)

/-- The bound globals of a module, in declaration order, paired with their
resource bindings. -/
def boundEntries (m : Module) : List (GlobalVariable × ResourceBinding) :=
  boundEntriesOf m.globalVariables

/-- The (group, binding) keys of the bound globals of a declaration list. -/
def incomingKeys (gs : List GlobalVariable) : List (Nat × Nat) :=
  (boundEntriesOf gs).map fun p => (p.2.group, p.2.binding)

/-- The resolved bindings of one group contributed by a declaration list:
the bound globals with that group index, in order. -/
def declOf (gs : List GlobalVariable) (g : Nat) : GroupData :=
  ((boundEntriesOf gs).filter fun p => p.2.group == g).map toGroupBinding

/-- The (group, binding) key of every bound global, in declaration order. -/
def boundKeys (m : Module) : List (Nat × Nat) :=
  (boundEntries m).map fun p => (p.2.group, p.2.binding)

/-- The group index of every bound global, in declaration order. -/
def groupIndices (m : Module) : List Nat :=
  (boundEntries m).map fun p => p.2.group

/-- Sorted-set insertion of a key, mirroring where `insertBinding` places a
new group key. -/
def insertAsc (k : Nat) : List Nat → List Nat
  | [] => [k]
  | x :: xs =>
    if k < x then k :: x :: xs
    else if k = x then x :: xs
    else x :: insertAsc k xs

/-- The distinct group indices of the bound globals, in ascending order. -/
def sortedGroupKeys (m : Module) : List Nat :=
  (groupIndices m).foldl (fun acc g => insertAsc g acc) []

/-- The resolved bindings a group is expected to hold: the bound globals
declared with that group index, in declaration order. -/
def declBindings (m : Module) (g : Nat) : GroupData :=
  declOf m.globalVariables g

/-! ### The type classifier of bind_group_layout_entry -/

/-- Texture sample types of the target descriptor model
(`wgpu::TextureSampleType`). -/
inductive TextureSampleType
  | sint
  | uint
  | float (filterable : Bool)
  | depth
deriving DecidableEq, Repr

/-- Texture view dimensions of the target descriptor model
(`wgpu::TextureViewDimension`). -/
inductive TextureViewDimension
  | d1
  | d2
  | d3
  | cube
deriving DecidableEq, Repr

/-- Storage texture access of the target descriptor model
(`wgpu::StorageTextureAccess`). -/
inductive StorageTextureAccess
  | readOnly
  | writeOnly
  | readWrite
deriving DecidableEq, Repr

/-- Sampler binding types of the target descriptor model
(`wgpu::SamplerBindingType`). -/
inductive SamplerBindingType
  | filtering
  | comparison
deriving DecidableEq, Repr

/-- The binding-type taxonomy emitted by `bind_group_layout_entry`
(`wgpu::BindingType`).  The buffer arm derives its uniform/storage payload
through `buffer_binding_type` (src/wgsl.rs, absent from the provided
sources); the embedding carries the address space the payload would be
derived from, verbatim. -/
inductive WgpuBindingType
  | buffer (space : AddressSpace)
  | texture (sampleType : TextureSampleType)
      (viewDimension : TextureViewDimension) (multisampled : Bool)
  | storageTexture (access : StorageTextureAccess) (format : String)
      (viewDimension : TextureViewDimension)
  | sampler (ty : SamplerBindingType)
deriving DecidableEq, Repr

/-- The panic outcomes of the classification code.  These model Rust
panics, that is process aborts, not recoverable error values: the
recoverable error enum of the crate, `CreateModuleError`, has no variant
for any of them. -/
inductive PanicKind
  /-- Panic of the sampled-kind match: the message interpolates the kind
  (`panic!("Unsupported sample type: {kind:#?}")`). -/
  | unsupportedSampleType (kind : ScalarKind)
  /-- The `todo!()` of `storage_access`, commented `shouldnt be possible`. -/
  | storageAccessTodo
  /-- The catch-all panic of `bind_group_layout_entry`, whose fixed message
  `Failed to generate BindingType.` carries no description of the type. -/
  | failedBindingType
deriving DecidableEq, Repr

/-- Embedding of `storage_access` (bind_group/mod.rs lines 338-347): derive
the storage-texture access from the LOAD and STORE flags; both set gives
ReadWrite, only LOAD gives ReadOnly, only STORE gives WriteOnly, neither
set hits a `todo!()` panic. -/
def storage_access (access : StorageAccess) :
    Except PanicKind StorageTextureAccess :=
  match access.load, access.store with
  | true, true => .ok .readWrite
  | true, false => .ok .readOnly
  | false, true => .ok .writeOnly
  | false, false => .error .storageAccessTodo

/-- The 1:1 dimension mapping inside the image arm of
`bind_group_layout_entry`. -/
def viewDimension : ImageDimension → TextureViewDimension
  | .d1 => .d1
  | .d2 => .d2
  | .d3 => .d3
  | .cube => .cube

/-- Embedding of the `ty` computation of `bind_group_layout_entry`
(bind_group/mod.rs lines 240-336): scalar, struct and array types become
buffers; images map by class (sampled kinds Sint, Uint, Float with
filterable false, the Depth class always the Depth sample type, the
Storage class a storage texture whose format is carried verbatim);
samplers map by their comparison flag; every other type hits the catch-all
panic with the fixed message `Failed to generate BindingType.`. -/
def bind_group_layout_entry_ty (binding : GroupBinding) :
    Except PanicKind WgpuBindingType :=
  match binding.bindingType.inner with
  | .scalar _ | .struct | .array => .ok (.buffer binding.addressSpace)
  | .image dim _ cls =>
    match cls with
    | .sampled kind multi =>
      match kind with
      | .sint => .ok (.texture .sint (viewDimension dim) multi)
      | .uint => .ok (.texture .uint (viewDimension dim) multi)
      | .float => .ok (.texture (.float false) (viewDimension dim) multi)
      | k => .error (.unsupportedSampleType k)
    | .depth multi => .ok (.texture .depth (viewDimension dim) multi)
    | .storage format access =>
      match storage_access access with
      | .ok sa => .ok (.storageTexture sa format (viewDimension dim))
      | .error e => .error e
  | .sampler comparison =>
    .ok (.sampler (if comparison then .comparison else .filtering))
  | _ => .error .failedBindingType

/-- Whether a type interior falls into the catch-all arm of
`bind_group_layout_entry`: neither scalar, struct, array, image nor
sampler. -/
def unmappedInner : TypeInner → Bool
  | .vector .. | .matrix .. | .atomic .. | .pointer
  | .accelerationStructure | .bindingArray => true
  | _ => false

/-- Whether a resolved binding type is the Texture variant. -/
def WgpuBindingType.isTexture : WgpuBindingType → Bool
  | .texture .. => true
  | _ => false

/-- Whether a resolved binding type is the StorageTexture variant. -/
def WgpuBindingType.isStorageTexture : WgpuBindingType → Bool
  | .storageTexture .. => true
  | _ => false

/-- Whether an image class is the Storage class. -/
def ImageClass.isStorage : ImageClass → Bool
  | .storage .. => true
  | _ => false

/-! ### The vertex layout resolver (spec-modelled parts) -/

/-- Modelled from the spec: the target format taxonomy, that is the
texture-format names of the target descriptor model against which the spec
says a declared storage format must be checked.  Neither the taxonomy nor
any check against it appears in the provided sources; the names listed are
the storage-capable texture formats of the target API.  Note the
three-component packed float format is named Rg11b10Ufloat there, while
the shader IR names its storage format Rg11b10Float. -/
def targetFormatTaxonomy : List String :=
  [ "R8Unorm", "R8Snorm", "R8Uint", "R8Sint"
  , "R16Uint", "R16Sint", "R16Float", "R16Unorm", "R16Snorm"
  , "Rg8Unorm", "Rg8Snorm", "Rg8Uint", "Rg8Sint"
  , "R32Uint", "R32Sint", "R32Float"
  , "Rg16Uint", "Rg16Sint", "Rg16Float", "Rg16Unorm", "Rg16Snorm"
  , "Rgba8Unorm", "Rgba8Snorm", "Rgba8Uint", "Rgba8Sint", "Bgra8Unorm"
  , "Rgb10a2Uint", "Rgb10a2Unorm", "Rg11b10Ufloat"
  , "Rg32Uint", "Rg32Sint", "Rg32Float"
  , "Rgba16Uint", "Rgba16Sint", "Rgba16Float", "Rgba16Unorm", "Rgba16Snorm"
  , "Rgba32Uint", "Rgba32Sint", "Rgba32Float" ]

/-- The vertex format taxonomy (`wgpu::VertexFormat`), restricted to the
tags the covered matrix produces. -/
inductive VertexFormat
  | float32 | float32x2 | float32x3 | float32x4
  | float64 | float64x2 | float64x3 | float64x4
  | sint32 | sint32x2 | sint32x3 | sint32x4
  | uint32 | uint32x2 | uint32x3 | uint32x4
deriving DecidableEq, Repr

/-- The failure of the vertex format derivation. -/
inductive VertexFormatError
  | unsupportedVertexFormat
deriving DecidableEq, Repr

/-- Modelled from the spec: the scalar-kind, width and component-count
matrix of the vertex format derivation (`vertex_format` lives in
src/wgsl.rs, absent from the provided sources).  Covered kinds are
32-bit float, 64-bit float, signed 32-bit integer and unsigned 32-bit
integer, each with 1 to 4 components; every other combination fails with
UnsupportedVertexFormat. -/
def scalarVertexFormat (s : Scalar) (components : Nat) :
    Except VertexFormatError VertexFormat :=
  if s.kind = .float ∧ s.width = 4 then
    if components = 1 then .ok .float32
    else if components = 2 then .ok .float32x2
    else if components = 3 then .ok .float32x3
    else if components = 4 then .ok .float32x4
    else .error .unsupportedVertexFormat
  else if s.kind = .float ∧ s.width = 8 then
    if components = 1 then .ok .float64
    else if components = 2 then .ok .float64x2
    else if components = 3 then .ok .float64x3
    else if components = 4 then .ok .float64x4
    else .error .unsupportedVertexFormat
  else if s.kind = .sint ∧ s.width = 4 then
    if components = 1 then .ok .sint32
    else if components = 2 then .ok .sint32x2
    else if components = 3 then .ok .sint32x3
    else if components = 4 then .ok .sint32x4
    else .error .unsupportedVertexFormat
  else if s.kind = .uint ∧ s.width = 4 then
    if components = 1 then .ok .uint32
    else if components = 2 then .ok .uint32x2
    else if components = 3 then .ok .uint32x3
    else if components = 4 then .ok .uint32x4
    else .error .unsupportedVertexFormat
  else .error .unsupportedVertexFormat

/-- Modelled from the spec: the vertex format of a field type; scalars have
one component, vectors as many as their size, and any other shape is not a
vertex format. -/
def vertex_format : TypeInner → Except VertexFormatError VertexFormat
  | .scalar s => scalarVertexFormat s 1
  | .vector size s => scalarVertexFormat s size.toNat
  | _ => .error .unsupportedVertexFormat

/-- Ordered insertion of a located field, by location index. -/
def insertByLoc (p : Nat × VertexStructField) :
    List (Nat × VertexStructField) → List (Nat × VertexStructField)
  | [] => [p]
  | q :: qs => if p.1 ≤ q.1 then p :: q :: qs else q :: insertByLoc p qs

/-- Insertion sort of located fields by location index. -/
def sortByLoc (l : List (Nat × VertexStructField)) :
    List (Nat × VertexStructField) :=
  l.foldr insertByLoc []

/-- Modelled from the spec: `get_vertex_input_structs` (src/wgsl.rs, absent
from the provided sources) collects, for each entry point of the vertex
stage, each struct-typed input parameter, with its field list ordered by
declared location index. -/
def get_vertex_input_structs (m : Module) : List VertexStructDef :=
  (m.entryPoints.filter fun e => e.stage == .vertex).flatMap fun e =>
    e.vertexInputs.map fun s => { name := s.name, fields := sortByLoc s.fields }

/-- The attribute list of a vertex input struct as laid out by
`vertex_input_structs` (lib.rs lines 345-396): one attribute per field, in
field order, carrying the location and the derived format.  Byte offsets
are computed by the surrounding Rust compiler (`std::mem::offset_of!`) and
are not part of the resolver. -/
def vertexAttributes (vi : VertexStructDef) :
    List (Nat × Except VertexFormatError VertexFormat) :=
  vi.fields.map fun p => (p.1, vertex_format p.2.ty)

/-! ### Group map views and invariants -/

/-- Lookup of the bucket of a group key. -/
def lookupGroup : GroupMap → Nat → Option GroupData
  | [], _ => none
  | (k, bs) :: rest, g => if k = g then some bs else lookupGroup rest g

/-- The bucket of a group key, empty when the key is absent. -/
def bucketView (l : GroupMap) (g : Nat) : GroupData :=
  (lookupGroup l g).getD []

/-- The key sequence of a group map. -/
def keysOf (l : GroupMap) : List Nat := l.map Prod.fst

/-- Every (group, binding index) pair held in a group map. -/
def accKeys (l : GroupMap) : List (Nat × Nat) :=
  l.flatMap fun p => p.2.map fun gb => (p.1, gb.bindingIndex)

/-- Strict ascending order of the keys of a group map, the BTreeMap
invariant. -/
def KeysSorted (l : GroupMap) : Prop := (keysOf l).Pairwise (· < ·)

theorem lookupGroup_none_of_lt {l : GroupMap} {g : Nat}
    (hs : KeysSorted l) (h : ∀ k ∈ keysOf l, g < k) :
    lookupGroup l g = none := by
  induction l with
  | nil => rfl
  | cons p rest ih =>
    obtain ⟨k, bs⟩ := p
    have hk : g < k := h k (by simp [keysOf])
    simp only [lookupGroup, if_neg (by omega : ¬ k = g)]
    exact ih (List.Pairwise.of_cons hs) (fun k' hk' => h k' (by simp [keysOf] at hk' ⊢; right; exact hk'))

theorem lookupGroup_mem {l : GroupMap} {g : Nat} {bs : GroupData}
    (h : lookupGroup l g = some bs) : (g, bs) ∈ l := by
  induction l with
  | nil => simp [lookupGroup] at h
  | cons p rest ih =>
    obtain ⟨k, cs⟩ := p
    by_cases hk : k = g
    · subst hk
      simp [lookupGroup] at h
      simp [h]
    · simp [lookupGroup, hk] at h
      exact List.mem_cons_of_mem _ (ih h)

theorem mem_lookupGroup {l : GroupMap} {g : Nat} {bs : GroupData}
    (hnd : (keysOf l).Nodup) (h : (g, bs) ∈ l) :
    lookupGroup l g = some bs := by
  induction l with
  | nil => simp at h
  | cons p rest ih =>
    obtain ⟨k, cs⟩ := p
    have hnd2 := List.nodup_cons.mp (show (k :: keysOf rest).Nodup from hnd)
    rcases List.mem_cons.mp h with h | h
    · cases h
      simp [lookupGroup]
    · have hk : k ≠ g := by
        intro hkg
        subst hkg
        exact hnd2.1 (by simpa [keysOf] using List.mem_map_of_mem Prod.fst h)
      simp only [lookupGroup, if_neg hk]
      exact ih hnd2.2 h

theorem mem_accKeys_of_bucket {l : GroupMap} {g b : Nat}
    (h : ∃ gb ∈ bucketView l g, gb.bindingIndex = b) :
    (g, b) ∈ accKeys l := by
  obtain ⟨gb, hgb, hb⟩ := h
  unfold bucketView at hgb
  cases hlk : lookupGroup l g with
  | none => rw [hlk] at hgb; simp at hgb
  | some bs =>
    rw [hlk] at hgb
    simp only [Option.getD_some] at hgb
    have hmem : (g, bs) ∈ l := lookupGroup_mem hlk
    unfold accKeys
    rw [List.mem_flatMap]
    refine ⟨(g, bs), hmem, ?_⟩
    have := List.mem_map_of_mem (fun gb => (g, gb.bindingIndex)) hgb
    simpa [hb] using this

theorem bucket_of_mem_accKeys {l : GroupMap} {g b : Nat}
    (hnd : (keysOf l).Nodup) (h : (g, b) ∈ accKeys l) :
    ∃ gb ∈ bucketView l g, gb.bindingIndex = b := by
  unfold accKeys at h
  rw [List.mem_flatMap] at h
  obtain ⟨⟨k, bs⟩, hmem, hin⟩ := h
  rw [List.mem_map] at hin
  obtain ⟨gb, hgb, heq⟩ := hin
  have hk : k = g := congrArg Prod.fst heq
  subst hk
  have hb : gb.bindingIndex = b := congrArg Prod.snd heq
  have hlk : lookupGroup l k = some bs := mem_lookupGroup hnd hmem
  exact ⟨gb, by unfold bucketView; rw [hlk]; simpa using hgb, hb⟩

theorem insertAsc_mem {k x : Nat} {l : List Nat} :
    x ∈ insertAsc k l ↔ x = k ∨ x ∈ l := by
  induction l with
  | nil => simp [insertAsc]
  | cons y ys ih =>
    simp only [insertAsc]
    by_cases h1 : k < y
    · simp [h1]
    · by_cases h2 : k = y
      · subst h2
        simp [h1]
      · simp [h1, h2, ih]
        tauto

theorem insertAsc_sorted {k : Nat} {l : List Nat}
    (hs : l.Pairwise (· < ·)) : (insertAsc k l).Pairwise (· < ·) := by
  induction l with
  | nil => simp [insertAsc]
  | cons y ys ih =>
    simp only [insertAsc]
    by_cases h1 : k < y
    · simp only [if_pos h1]
      exact List.Pairwise.cons
        (by
          intro x hx
          rcases List.mem_cons.mp hx with h | h
          · omega
          · have := (List.pairwise_cons.mp hs).1 x h
            omega)
        hs
    · by_cases h2 : k = y
      · simp [h1, h2, hs]
      · simp only [if_neg h1, if_neg h2]
        have hrest := (List.pairwise_cons.mp hs).2
        refine List.Pairwise.cons ?_ (ih hrest)
        intro x hx
        rcases insertAsc_mem.mp hx with h | h
        · omega
        · exact (List.pairwise_cons.mp hs).1 x h

theorem bucketView_nil (g : Nat) : bucketView [] g = [] := rfl

theorem bucketView_cons_self (k : Nat) (bs : GroupData) (rest : GroupMap) :
    bucketView ((k, bs) :: rest) k = bs := by
  simp [bucketView, lookupGroup]

theorem bucketView_cons_ne {k g : Nat} (bs : GroupData) (rest : GroupMap)
    (h : k ≠ g) : bucketView ((k, bs) :: rest) g = bucketView rest g := by
  simp [bucketView, lookupGroup, h]

theorem bucketView_of_none {l : GroupMap} {g : Nat}
    (h : lookupGroup l g = none) : bucketView l g = [] := by
  simp [bucketView, h]

/-- Failure case of `insertBinding`: when the bucket of the key already
holds the binding index, the insertion fails with exactly that index. -/
theorem insertBinding_error {l : GroupMap} {k : Nat} {gb : GroupBinding}
    (hs : KeysSorted l)
    (hdup : (bucketView l k).any (fun g => g.bindingIndex == gb.bindingIndex) = true) :
    insertBinding k gb l = .error (.duplicateBinding gb.bindingIndex) := by
  induction l with
  | nil => simp [bucketView, lookupGroup] at hdup
  | cons p rest ih =>
    obtain ⟨k', bs⟩ := p
    by_cases h1 : k < k'
    · exfalso
      have hnone : lookupGroup ((k', bs) :: rest) k = none := by
        apply lookupGroup_none_of_lt hs
        intro x hx
        rcases List.mem_cons.mp hx with h | h
        · omega
        · have := (List.pairwise_cons.mp hs).1 x h
          omega
      rw [bucketView, hnone] at hdup
      simp at hdup
    · by_cases h2 : k = k'
      · subst h2
        have hb : bucketView ((k, bs) :: rest) k = bs := by
          simp [bucketView, lookupGroup]
        rw [hb] at hdup
        simp [insertBinding, h1, hdup]
      · have h2' : k' ≠ k := fun h => h2 h.symm
        have hb : bucketView ((k', bs) :: rest) k = bucketView rest k := by
          simp [bucketView, lookupGroup, h2']
        rw [hb] at hdup
        have hrest : KeysSorted rest := (List.pairwise_cons.mp hs).2
        simp [insertBinding, h1, h2, ih hrest hdup]

/-- Success case of `insertBinding`: when the bucket of the key does not
hold the binding index, the insertion succeeds; the new map keeps sorted
keys, its key set gains the key, the bucket of the key gains the binding
at its end, every other bucket is unchanged, and the multiset of
(group, binding index) pairs gains exactly the inserted pair. -/
theorem insertBinding_ok {l : GroupMap} {k : Nat} {gb : GroupBinding}
    (hs : KeysSorted l)
    (hfree : (bucketView l k).any (fun g => g.bindingIndex == gb.bindingIndex) = false) :
    ∃ l', insertBinding k gb l = .ok l' ∧
      KeysSorted l' ∧
      keysOf l' = insertAsc k (keysOf l) ∧
      (∀ g, bucketView l' g =
        if g = k then bucketView l k ++ [gb] else bucketView l g) ∧
      accKeys l' ~ (k, gb.bindingIndex) :: accKeys l := by
  induction l with
  | nil =>
    refine ⟨[(k, [gb])], rfl, ?_, rfl, ?_, List.Perm.refl _⟩
    · simp [KeysSorted, keysOf]
    · intro g
      by_cases hg : g = k
      · subst hg
        rw [bucketView_cons_self, if_pos rfl, bucketView_nil]
        rfl
      · rw [bucketView_cons_ne _ _ (Ne.symm hg), if_neg hg]
  | cons p rest ih =>
    obtain ⟨k', bs⟩ := p
    have hrest : KeysSorted rest := (List.pairwise_cons.mp hs).2
    by_cases h1 : k < k'
    · have hnone : lookupGroup ((k', bs) :: rest) k = none := by
        apply lookupGroup_none_of_lt hs
        intro x hx
        rcases List.mem_cons.mp hx with h | h
        · omega
        · have := (List.pairwise_cons.mp hs).1 x h
          omega
      refine ⟨(k, [gb]) :: (k', bs) :: rest, by simp [insertBinding, h1], ?_, ?_, ?_,
        List.Perm.refl _⟩
      · refine List.Pairwise.cons ?_ hs
        intro x hx
        rcases List.mem_cons.mp hx with h | h
        · omega
        · have := (List.pairwise_cons.mp hs).1 x h
          omega
      · simp [keysOf, insertAsc, h1]
      · intro g
        by_cases hg : g = k
        · subst hg
          rw [bucketView_cons_self, if_pos rfl, bucketView_of_none hnone]
          rfl
        · rw [bucketView_cons_ne _ _ (Ne.symm hg), if_neg hg]
    · by_cases h2 : k = k'
      · subst h2
        rw [bucketView_cons_self] at hfree
        refine ⟨(k, bs ++ [gb]) :: rest,
          by simp [insertBinding, h1, hfree], ?_, ?_, ?_, ?_⟩
        · simpa [KeysSorted, keysOf] using hs
        · simp [keysOf, insertAsc, h1]
        · intro g
          by_cases hg : g = k
          · subst hg
            rw [bucketView_cons_self, if_pos rfl, bucketView_cons_self]
          · rw [bucketView_cons_ne _ _ (Ne.symm hg), if_neg hg,
              bucketView_cons_ne _ _ (Ne.symm hg)]
        · show ((bs ++ [gb]).map fun gb => (k, gb.bindingIndex)) ++ accKeys rest ~
            (k, gb.bindingIndex) :: ((bs.map fun gb => (k, gb.bindingIndex)) ++ accKeys rest)
          rw [List.map_append]
          calc (bs.map fun gb => (k, gb.bindingIndex)) ++
                ([gb].map fun gb => (k, gb.bindingIndex)) ++ accKeys rest
              = (bs.map fun gb => (k, gb.bindingIndex)) ++
                ((k, gb.bindingIndex) :: accKeys rest) := by
                simp
            _ ~ (k, gb.bindingIndex) ::
                ((bs.map fun gb => (k, gb.bindingIndex)) ++ accKeys rest) :=
                List.perm_middle
      · rw [bucketView_cons_ne _ _ (Ne.symm h2)] at hfree
        obtain ⟨rest', hins, hsort', hkeys', hbuck', hperm'⟩ := ih hrest hfree
        refine ⟨(k', bs) :: rest', by simp [insertBinding, h1, h2, hins], ?_, ?_, ?_, ?_⟩
        · refine List.Pairwise.cons ?_ hsort'
          intro x hx
          have hx2 : x ∈ keysOf rest' := hx
          rw [hkeys'] at hx2
          have hx' : x ∈ insertAsc k (keysOf rest) := hx2
          rcases insertAsc_mem.mp hx' with h | h
          · omega
          · exact (List.pairwise_cons.mp hs).1 x h
        · have hstep : insertAsc k (keysOf ((k', bs) :: rest)) =
              k' :: insertAsc k (keysOf rest) := by
            simp [keysOf, insertAsc, h1, h2]
          rw [hstep]
          simpa [keysOf] using congrArg (List.cons k') hkeys'
        · intro g
          by_cases hg : g = k'
          · subst hg
            rw [bucketView_cons_self, if_neg (Ne.symm h2), bucketView_cons_self]
          · have e1 : bucketView ((k', bs) :: rest') g = bucketView rest' g :=
              bucketView_cons_ne bs rest' (Ne.symm hg)
            have e2 : bucketView ((k', bs) :: rest) g = bucketView rest g :=
              bucketView_cons_ne bs rest (Ne.symm hg)
            have e3 : bucketView ((k', bs) :: rest) k = bucketView rest k :=
              bucketView_cons_ne bs rest (Ne.symm h2)
            rw [e1, e2, e3]
            exact hbuck' g
        · show (bs.map fun gb => (k', gb.bindingIndex)) ++ accKeys rest' ~
            (k, gb.bindingIndex) ::
              ((bs.map fun gb => (k', gb.bindingIndex)) ++ accKeys rest)
          calc (bs.map fun gb => (k', gb.bindingIndex)) ++ accKeys rest'
              ~ (bs.map fun gb => (k', gb.bindingIndex)) ++
                ((k, gb.bindingIndex) :: accKeys rest) :=
                List.Perm.append_left _ hperm'
            _ ~ (k, gb.bindingIndex) ::
                ((bs.map fun gb => (k', gb.bindingIndex)) ++ accKeys rest) :=
                List.perm_middle

theorem keysOf_nodup_of_sorted {l : GroupMap} (hs : KeysSorted l) :
    (keysOf l).Nodup :=
  hs.imp Nat.ne_of_lt

theorem any_bucket_iff_mem_accKeys {l : GroupMap} {k b : Nat}
    (hs : KeysSorted l) :
    (bucketView l k).any (fun g => g.bindingIndex == b) = true ↔
      (k, b) ∈ accKeys l := by
  constructor
  · intro h
    rw [List.any_eq_true] at h
    obtain ⟨gb, hgb, hbeq⟩ := h
    exact mem_accKeys_of_bucket ⟨gb, hgb, eq_of_beq hbeq⟩
  · intro h
    obtain ⟨gb, hgb, hbeq⟩ :=
      bucket_of_mem_accKeys (keysOf_nodup_of_sorted hs) h
    rw [List.any_eq_true]
    exact ⟨gb, hgb, by simp [hbeq]⟩

theorem incomingKeys_cons_none {gv : GlobalVariable} {gs : List GlobalVariable}
    (h : gv.binding = none) :
    incomingKeys (gv :: gs) = incomingKeys gs := by
  simp [incomingKeys, boundEntriesOf, List.filterMap_cons, h]

theorem incomingKeys_cons_some {gv : GlobalVariable} {gs : List GlobalVariable}
    {rb : ResourceBinding} (h : gv.binding = some rb) :
    incomingKeys (gv :: gs) = (rb.group, rb.binding) :: incomingKeys gs := by
  simp [incomingKeys, boundEntriesOf, List.filterMap_cons, h]

theorem declOf_cons_none {gv : GlobalVariable} {gs : List GlobalVariable}
    (h : gv.binding = none) (g : Nat) :
    declOf (gv :: gs) g = declOf gs g := by
  simp [declOf, boundEntriesOf, List.filterMap_cons, h]

theorem declOf_cons_some_eq {gv : GlobalVariable} {gs : List GlobalVariable}
    {rb : ResourceBinding} (h : gv.binding = some rb) :
    declOf (gv :: gs) rb.group =
      toGroupBinding (gv, rb) :: declOf gs rb.group := by
  simp [declOf, boundEntriesOf, List.filterMap_cons, h]

theorem declOf_cons_some_ne {gv : GlobalVariable} {gs : List GlobalVariable}
    {rb : ResourceBinding} {g : Nat} (h : gv.binding = some rb)
    (hg : rb.group ≠ g) :
    declOf (gv :: gs) g = declOf gs g := by
  simp [declOf, boundEntriesOf, List.filterMap_cons, h, hg]

/-- Number of occurrences of a (group, binding) key in a key list. -/
def countPair (p : Nat × Nat) (l : List (Nat × Nat)) : Nat :=
  (l.filter fun q => decide (q = p)).length

theorem countPair_perm {p : Nat × Nat} {l₁ l₂ : List (Nat × Nat)}
    (h : l₁ ~ l₂) : countPair p l₁ = countPair p l₂ :=
  (h.filter _).length_eq

theorem countPair_append (p : Nat × Nat) (a b : List (Nat × Nat)) :
    countPair p (a ++ b) = countPair p a + countPair p b := by
  simp [countPair, List.filter_append]

theorem one_le_countPair_of_mem {p : Nat × Nat} {l : List (Nat × Nat)}
    (h : p ∈ l) : 1 ≤ countPair p l := by
  have hm : p ∈ l.filter fun q => decide (q = p) :=
    List.mem_filter.mpr ⟨h, by simp⟩
  have hlen := List.length_pos.mpr (List.ne_nil_of_mem hm)
  unfold countPair
  omega

theorem countPair_cons_self (p : Nat × Nat) (l : List (Nat × Nat)) :
    countPair p (p :: l) = countPair p l + 1 := by
  simp [countPair]

theorem countPair_eq_zero_of_not_mem {p : Nat × Nat} {l : List (Nat × Nat)}
    (h : p ∉ l) : countPair p l = 0 := by
  unfold countPair
  rw [List.filter_eq_nil_iff.mpr]
  · rfl
  · intro q hq
    simp only [decide_eq_true_eq]
    intro hqp
    exact h (hqp ▸ hq)

theorem countPair_le_one_of_nodup {p : Nat × Nat} {l : List (Nat × Nat)}
    (h : l.Nodup) : countPair p l ≤ 1 := by
  induction l with
  | nil => simp [countPair]
  | cons a l ih =>
    obtain ⟨ha, hl⟩ := List.nodup_cons.mp h
    by_cases hap : a = p
    · subst hap
      rw [countPair_cons_self, countPair_eq_zero_of_not_mem ha]
    · have : countPair p (a :: l) = countPair p l := by
        simp [countPair, hap]
      rw [this]
      exact ih hl

/-- Success of the extraction loop: when the (group, binding index) keys
held by the accumulator together with the incoming bound keys are free of
duplicates, the loop succeeds; the keys of the result extend those of the
accumulator by sorted-set insertion of every incoming group, and every
bucket of the result extends the corresponding accumulator bucket with the
bindings of that group, in declaration order. -/
theorem processGlobals_ok {gs : List GlobalVariable} {l : GroupMap}
    (hs : KeysSorted l)
    (hnd : (accKeys l ++ incomingKeys gs).Nodup) :
    ∃ r, processGlobals gs l = .ok r ∧ KeysSorted r ∧
      keysOf r = (incomingKeys gs).foldl (fun ks p => insertAsc p.1 ks) (keysOf l) ∧
      (∀ g, bucketView r g = bucketView l g ++ declOf gs g) := by
  induction gs generalizing l with
  | nil =>
    refine ⟨l, rfl, hs, ?_, ?_⟩
    · simp [incomingKeys, boundEntriesOf]
    · intro g
      simp [declOf, boundEntriesOf]
  | cons gv rest ih =>
    cases hb : gv.binding with
    | none =>
      rw [incomingKeys_cons_none hb] at hnd
      obtain ⟨r, hr, hsort, hkeys, hbuck⟩ := ih hs hnd
      refine ⟨r, by simp [processGlobals, hb, hr], hsort, ?_, ?_⟩
      · rw [incomingKeys_cons_none hb]
        exact hkeys
      · intro g
        rw [declOf_cons_none hb]
        exact hbuck g
    | some rb =>
      rw [incomingKeys_cons_some hb] at hnd
      have hnotmem : (rb.group, rb.binding) ∉ accKeys l := by
        intro hmem
        rcases List.nodup_append.mp hnd with ⟨_, _, hdisj⟩
        exact hdisj hmem (List.mem_cons_self _ _)
      have hfree : (bucketView l rb.group).any
          (fun g => g.bindingIndex == rb.binding) = false := by
        rw [← Bool.not_eq_true]
        intro h
        exact hnotmem ((any_bucket_iff_mem_accKeys hs).mp h)
      obtain ⟨l', hins, hsort', hkeys', hbuck', hperm'⟩ :=
        @insertBinding_ok l rb.group (toGroupBinding (gv, rb)) hs hfree
      have hpermtot : accKeys l' ++ incomingKeys rest ~
          accKeys l ++ ((rb.group, rb.binding) :: incomingKeys rest) := by
        calc accKeys l' ++ incomingKeys rest
            ~ ((rb.group, rb.binding) :: accKeys l) ++ incomingKeys rest :=
              List.Perm.append_right _ hperm'
          _ = (rb.group, rb.binding) :: (accKeys l ++ incomingKeys rest) := rfl
          _ ~ accKeys l ++ ((rb.group, rb.binding) :: incomingKeys rest) :=
              List.perm_middle.symm
      have hnd' : (accKeys l' ++ incomingKeys rest).Nodup :=
        (List.Perm.nodup_iff hpermtot).mpr hnd
      obtain ⟨r, hr, hsort, hkeys, hbuck⟩ := ih hsort' hnd'
      refine ⟨r, by simp [processGlobals, hb, hins, hr], hsort, ?_, ?_⟩
      · rw [incomingKeys_cons_some hb]
        simp only [List.foldl_cons]
        rw [hkeys, hkeys']
      · intro g
        rw [hbuck g, hbuck' g]
        by_cases hg : g = rb.group
        · subst hg
          rw [if_pos rfl, declOf_cons_some_eq hb]
          simp
        · rw [if_neg hg, declOf_cons_some_ne hb (Ne.symm hg)]

/-- Failure of the extraction loop: when the keys held by the accumulator
together with the incoming bound keys contain a duplicate, the loop fails
with a DuplicateBinding error whose index is genuinely duplicated. -/
theorem processGlobals_error {gs : List GlobalVariable} {l : GroupMap}
    (hs : KeysSorted l) (hacc : (accKeys l).Nodup)
    (hnd : ¬ (accKeys l ++ incomingKeys gs).Nodup) :
    ∃ g b, processGlobals gs l = .error (.duplicateBinding b) ∧
      2 ≤ countPair (g, b) (accKeys l ++ incomingKeys gs) := by
  induction gs generalizing l with
  | nil =>
    exfalso
    apply hnd
    simpa [incomingKeys, boundEntriesOf] using hacc
  | cons gv rest ih =>
    cases hb : gv.binding with
    | none =>
      rw [incomingKeys_cons_none hb] at hnd ⊢
      obtain ⟨g, b, herr, hcount⟩ := ih hs hacc hnd
      exact ⟨g, b, by simp [processGlobals, hb, herr], hcount⟩
    | some rb =>
      rw [incomingKeys_cons_some hb] at hnd ⊢
      by_cases hdup : (bucketView l rb.group).any
          (fun g => g.bindingIndex == rb.binding) = true
      · refine ⟨rb.group, rb.binding, ?_, ?_⟩
        · have herr := @insertBinding_error l rb.group (toGroupBinding (gv, rb)) hs hdup
          simp only [toGroupBinding] at herr
          simp [processGlobals, hb, toGroupBinding, herr]
        · have hmem : (rb.group, rb.binding) ∈ accKeys l :=
            (any_bucket_iff_mem_accKeys hs).mp hdup
          rw [countPair_append]
          have h1 : 1 ≤ countPair (rb.group, rb.binding) (accKeys l) :=
            one_le_countPair_of_mem hmem
          have h2 := countPair_cons_self (rb.group, rb.binding) (incomingKeys rest)
          omega
      · have hfree : (bucketView l rb.group).any
            (fun g => g.bindingIndex == rb.binding) = false := by
          rw [← Bool.not_eq_true]
          exact hdup
        obtain ⟨l', hins, hsort', hkeys', hbuck', hperm'⟩ :=
          @insertBinding_ok l rb.group (toGroupBinding (gv, rb)) hs hfree
        have hnotmem : (rb.group, rb.binding) ∉ accKeys l := fun hmem =>
          hdup ((any_bucket_iff_mem_accKeys hs).mpr hmem)
        have hacc' : (accKeys l').Nodup :=
          (List.Perm.nodup_iff hperm').mpr (List.nodup_cons.mpr ⟨hnotmem, hacc⟩)
        have hpermtot : accKeys l' ++ incomingKeys rest ~
            accKeys l ++ ((rb.group, rb.binding) :: incomingKeys rest) := by
          calc accKeys l' ++ incomingKeys rest
              ~ ((rb.group, rb.binding) :: accKeys l) ++ incomingKeys rest :=
                List.Perm.append_right _ hperm'
            _ = (rb.group, rb.binding) :: (accKeys l ++ incomingKeys rest) := rfl
            _ ~ accKeys l ++ ((rb.group, rb.binding) :: incomingKeys rest) :=
                List.perm_middle.symm
        have hnd' : ¬ (accKeys l' ++ incomingKeys rest).Nodup := fun h =>
          hnd ((List.Perm.nodup_iff hpermtot).mp h)
        obtain ⟨g, b, herr, hcount⟩ := ih hsort' hacc' hnd'
        refine ⟨g, b, by simp [processGlobals, hb, hins, herr], ?_⟩
        rw [← countPair_perm hpermtot]
        exact hcount

theorem boundKeys_eq (m : Module) :
    boundKeys m = incomingKeys m.globalVariables := rfl

theorem foldl_insertAsc_sorted (gs : List Nat) (acc : List Nat)
    (hacc : acc.Pairwise (· < ·)) :
    (gs.foldl (fun a g => insertAsc g a) acc).Pairwise (· < ·) := by
  induction gs generalizing acc with
  | nil => exact hacc
  | cons g gs ih => exact ih _ (insertAsc_sorted hacc)

theorem foldl_insertAsc_mem (gs : List Nat) (acc : List Nat) (x : Nat) :
    x ∈ gs.foldl (fun a g => insertAsc g a) acc ↔ x ∈ gs ∨ x ∈ acc := by
  induction gs generalizing acc with
  | nil => simp
  | cons g gs ih =>
    simp only [List.foldl_cons, ih, insertAsc_mem, List.mem_cons]
    tauto

theorem sortedGroupKeys_sorted (m : Module) :
    (sortedGroupKeys m).Pairwise (· < ·) :=
  foldl_insertAsc_sorted _ _ List.Pairwise.nil

theorem sortedGroupKeys_mem (m : Module) (g : Nat) :
    g ∈ sortedGroupKeys m ↔ g ∈ groupIndices m := by
  unfold sortedGroupKeys
  rw [foldl_insertAsc_mem]
  simp

theorem keysFold_eq (m : Module) :
    (incomingKeys m.globalVariables).foldl (fun ks p => insertAsc p.1 ks) [] =
      sortedGroupKeys m := by
  unfold incomingKeys sortedGroupKeys groupIndices boundEntries
  rw [List.foldl_map, List.foldl_map]

theorem sorted_eq_range_iff {l : List Nat} (hs : l.Pairwise (· < ·)) :
    l = List.range l.length ↔ ∀ g, g ∈ l ↔ g < l.length := by
  constructor
  · intro h g
    constructor
    · intro hg
      rw [h] at hg
      exact List.mem_range.mp hg
    · intro hg
      rw [h]
      exact List.mem_range.mpr hg
  · intro h
    have hnd : l.Nodup := hs.imp Nat.ne_of_lt
    have hperm : l ~ List.range l.length := by
      rw [List.perm_ext_iff_of_nodup hnd (List.nodup_range _)]
      intro a
      rw [h a, List.mem_range]
    haveI : IsAntisymm Nat (· < ·) :=
      ⟨fun a b h1 h2 => absurd (h1.trans h2) (lt_irrefl a)⟩
    exact List.eq_of_perm_of_sorted hperm hs (List.pairwise_lt_range _)

/-- Characterization of the successful extraction loop starting from the
empty map: under duplicate-free keys it succeeds, its keys are the sorted
distinct group indices, and every bucket is the declaration-order list of
the bindings of its group. -/
theorem processGlobals_root_ok (m : Module)
    (hnd : (boundKeys m).Nodup) :
    ∃ r, processGlobals m.globalVariables [] = .ok r ∧ KeysSorted r ∧
      keysOf r = sortedGroupKeys m ∧
      ∀ g, bucketView r g = declBindings m g := by
  have hnd' : (accKeys [] ++ incomingKeys m.globalVariables).Nodup := by
    rw [boundKeys_eq] at hnd
    simpa [accKeys] using hnd
  obtain ⟨r, hr, hsort, hkeys, hbuck⟩ :=
    @processGlobals_ok m.globalVariables [] List.Pairwise.nil hnd'
  refine ⟨r, hr, hsort, ?_, ?_⟩
  · rw [hkeys]
    exact keysFold_eq m
  · intro g
    rw [hbuck g]
    simp [bucketView, lookupGroup, declBindings]

/-- If the extraction loop succeeds then the bound keys held no duplicate. -/
theorem processGlobals_root_nodup {m : Module} {r : GroupMap}
    (h : processGlobals m.globalVariables [] = .ok r) :
    (boundKeys m).Nodup := by
  by_contra hnd
  have hnd' : ¬ (accKeys [] ++ incomingKeys m.globalVariables).Nodup := by
    rw [boundKeys_eq] at hnd
    simpa [accKeys] using hnd
  obtain ⟨g, b, herr, _⟩ :=
    @processGlobals_error m.globalVariables [] List.Pairwise.nil
      (by simp [accKeys]) hnd'
  rw [h] at herr
  cases herr

theorem get_eq_of_process_ok {m : Module} {r : GroupMap}
    (h : processGlobals m.globalVariables [] = .ok r) :
    get_bind_group_data m =
      if r.map Prod.fst = List.range r.length then .ok r
      else .error .nonConsecutiveBindGroups := by
  unfold get_bind_group_data
  rw [h]

theorem get_eq_of_process_error {m : Module} {e : CreateModuleError}
    (h : processGlobals m.globalVariables [] = .error e) :
    get_bind_group_data m = .error e := by
  unfold get_bind_group_data
  rw [h]

/-- What a successful run of `get_bind_group_data` guarantees: the keys are
strictly ascending, they are exactly the distinct group indices of the
bound globals, they span a contiguous range from zero, and each bucket
lists the bindings of its group in declaration order. -/
theorem get_bind_group_data_ok_char {m : Module} {r : GroupMap}
    (h : get_bind_group_data m = .ok r) :
    KeysSorted r ∧ keysOf r = sortedGroupKeys m ∧
    keysOf r = List.range r.length ∧
    ∀ g, bucketView r g = declBindings m g := by
  cases hp : processGlobals m.globalVariables [] with
  | error e =>
    rw [get_eq_of_process_error hp] at h
    cases h
  | ok r0 =>
    rw [get_eq_of_process_ok hp] at h
    by_cases hc : r0.map Prod.fst = List.range r0.length
    · rw [if_pos hc] at h
      injection h with h2
      subst h2
      have hnd := processGlobals_root_nodup hp
      obtain ⟨r', hr', hsort, hkeys, hbuck⟩ := processGlobals_root_ok m hnd
      rw [hp] at hr'
      injection hr' with h3
      subst h3
      exact ⟨hsort, hkeys, hc, hbuck⟩
    · rw [if_neg hc] at h
      cases h

theorem insertByLoc_mem {p x : Nat × VertexStructField}
    {l : List (Nat × VertexStructField)} :
    x ∈ insertByLoc p l ↔ x = p ∨ x ∈ l := by
  induction l with
  | nil => simp [insertByLoc]
  | cons q qs ih =>
    simp only [insertByLoc]
    by_cases h : p.1 ≤ q.1
    · simp [h]
    · simp [h, ih]
      tauto

theorem insertByLoc_sorted {p : Nat × VertexStructField}
    {l : List (Nat × VertexStructField)}
    (hs : l.Pairwise fun a b => a.1 ≤ b.1) :
    (insertByLoc p l).Pairwise fun a b => a.1 ≤ b.1 := by
  induction l with
  | nil => simp [insertByLoc]
  | cons q qs ih =>
    simp only [insertByLoc]
    by_cases h : p.1 ≤ q.1
    · rw [if_pos h]
      refine List.Pairwise.cons ?_ hs
      intro x hx
      rcases List.mem_cons.mp hx with hxq | hxqs
      · subst hxq
        exact h
      · have := (List.pairwise_cons.mp hs).1 x hxqs
        omega
    · rw [if_neg h]
      refine List.Pairwise.cons ?_ (ih (List.pairwise_cons.mp hs).2)
      intro x hx
      rcases insertByLoc_mem.mp hx with hxp | hxqs
      · subst hxp
        omega
      · exact (List.pairwise_cons.mp hs).1 x hxqs

theorem sortByLoc_sorted (l : List (Nat × VertexStructField)) :
    (sortByLoc l).Pairwise fun a b => a.1 ≤ b.1 := by
  induction l with
  | nil => simp [sortByLoc]
  | cons p ps ih => exact insertByLoc_sorted ih

/-! ### Concrete example modules -/

/-- A scalar 32-bit float type, a minimal uniform-compatible resource type. -/
def scalarF32 : NagaType := { name := none, inner := .scalar { kind := .float, width := 4 } }

/-- A uniform global bound at the given group and binding indices. -/
def uvar (g b : Nat) : GlobalVariable :=
  { name := none, space := .uniform, binding := some { group := g, binding := b }
    ty := scalarF32 }

/-- Two globals sharing group 0 and binding 0. -/
def dupModule : Module := { globalVariables := [uvar 0 0, uvar 0 0], entryPoints := [] }

/-- Two globals with the same binding index 0 in groups 0 and 1. -/
def twoGroupModule : Module :=
  { globalVariables := [uvar 0 0, uvar 1 0], entryPoints := [] }

/-- Two globals of group 0 declared with binding 1 before binding 0. -/
def reorderModule : Module :=
  { globalVariables := [uvar 0 1, uvar 0 0], entryPoints := [] }

/-- A module with one bound global and a vertex entry point whose input
struct declares its fields with locations out of order. -/
def vertexModule : Module :=
  { globalVariables := [uvar 0 0]
    entryPoints :=
      [ { name := "vs_main", stage := .vertex
          vertexInputs :=
            [ { name := "VertexInput"
                fields :=
                  [ (1, { name := some "a", ty := .scalar { kind := .float, width := 4 } })
                  , (0, { name := some "b", ty := .vector .bi { kind := .float, width := 4 } }) ] } ] } ] }

/-- One global bound at group 1 (skipping group 0). -/
def gapModule : Module := { globalVariables := [uvar 1 0], entryPoints := [] }

/-- On a successful run, every stored group lists exactly the bindings of
the globals declared with its group index, in declaration order. -/
theorem groups_decl_of_ok {m : Module} {r : GroupMap}
    (h : get_bind_group_data m = .ok r) :
    ∀ g bs, (g, bs) ∈ r → bs = declBindings m g := by
  obtain ⟨hsort, hkeys, hrange, hbuck⟩ := get_bind_group_data_ok_char h
  intro g bs hmem
  have hlk := mem_lookupGroup (keysOf_nodup_of_sorted hsort) hmem
  have hbv : bucketView r g = bs := by
    unfold bucketView
    rw [hlk]
    rfl
  rw [← hbv]
  exact hbuck g

/-! ### Claim theorems -/

/-- C1 counterexample: in a module whose two bound globals both declare
group 0 and binding 0, the set of group indices is exactly the contiguous
range 0..1, yet get_bind_group_data does not return Ok; it returns
Err(DuplicateBinding 0), so the claimed if-and-only-if fails and the
error in this other case is not NonConsecutiveBindGroups. -/
theorem C1_counterexample :
    sortedGroupKeys dupModule =
      List.range (sortedGroupKeys dupModule).length ∧
    get_bind_group_data dupModule = .error (.duplicateBinding 0) := by
  constructor
  · decide
  · rfl

/-- C1 (amended): for every module whose bound globals carry pairwise
distinct (group, binding) pairs, get_bind_group_data returns Ok exactly
when the set of group indices of bound globals equals the contiguous range
0..N, where N is the number of distinct groups; the stored keys are then
exactly 0..N in ascending order, and in every failing case the error is
NonConsecutiveBindGroups. -/
theorem C1_theorem (m : Module) (hnodup : (boundKeys m).Nodup) :
    (okB (get_bind_group_data m) = true ↔
      (∀ g, g ∈ groupIndices m ↔ g < (sortedGroupKeys m).length)) ∧
    (∀ r, get_bind_group_data m = .ok r → keysOf r = List.range r.length) ∧
    (okB (get_bind_group_data m) = false →
      get_bind_group_data m = .error .nonConsecutiveBindGroups) := by
  obtain ⟨r, hr, hsort, hkeys, hbuck⟩ := processGlobals_root_ok m hnodup
  have hlen : r.length = (sortedGroupKeys m).length := by
    rw [← hkeys]
    simp [keysOf]
  have hcond : (r.map Prod.fst = List.range r.length) ↔
      (sortedGroupKeys m = List.range (sortedGroupKeys m).length) := by
    show (keysOf r = List.range r.length) ↔ _
    rw [hkeys, hlen]
  have hbridge := sorted_eq_range_iff (sortedGroupKeys_sorted m)
  have hmemiff : (∀ g, g ∈ sortedGroupKeys m ↔ g < (sortedGroupKeys m).length) ↔
      (∀ g, g ∈ groupIndices m ↔ g < (sortedGroupKeys m).length) := by
    constructor
    · intro h g
      rw [← sortedGroupKeys_mem m g]
      exact h g
    · intro h g
      rw [sortedGroupKeys_mem m g]
      exact h g
  rw [get_eq_of_process_ok hr]
  by_cases hc : r.map Prod.fst = List.range r.length
  · rw [if_pos hc]
    refine ⟨?_, ?_, ?_⟩
    · constructor
      · intro _
        exact hmemiff.mp (hbridge.mp (hcond.mp hc))
      · intro _
        rfl
    · intro r' hr'
      injection hr' with h2
      subst h2
      exact hc
    · intro hfalse
      exact absurd hfalse (by simp [okB])
  · rw [if_neg hc]
    refine ⟨?_, ?_, ?_⟩
    · constructor
      · intro htrue
        exact absurd htrue (by simp [okB])
      · intro h
        exact absurd (hcond.mpr (hbridge.mpr (hmemiff.mpr h))) hc
    · intro r' hr'
      cases hr'
    · intro _
      rfl

/-- C1 witness: the amended theorem applied to the concrete module whose
only bound global declares group 1, which therefore fails with
NonConsecutiveBindGroups. -/
theorem C1_witness :
    get_bind_group_data gapModule = .error .nonConsecutiveBindGroups :=
  (C1_theorem gapModule (by decide)).2.2 (by decide)

/-- C2: in every module where some (group, binding) pair is declared by at
least two bound globals, get_bind_group_data fails with DuplicateBinding
carrying an index that is genuinely duplicated within one group, and it
never returns Ok. -/
theorem C2_theorem (m : Module)
    (h : ∃ g b, 2 ≤ countPair (g, b) (boundKeys m)) :
    (∃ g b, get_bind_group_data m = .error (.duplicateBinding b) ∧
      2 ≤ countPair (g, b) (boundKeys m)) ∧
    ∀ r, get_bind_group_data m ≠ .ok r := by
  have hnd : ¬ (boundKeys m).Nodup := by
    obtain ⟨g, b, hc⟩ := h
    intro hn
    have hle := @countPair_le_one_of_nodup (g, b) _ hn
    omega
  have hnd' : ¬ (accKeys [] ++ incomingKeys m.globalVariables).Nodup := by
    rw [boundKeys_eq] at hnd
    simpa [accKeys] using hnd
  obtain ⟨g, b, herr, hcount⟩ :=
    @processGlobals_error m.globalVariables [] List.Pairwise.nil
      (by simp [accKeys]) hnd'
  have hget : get_bind_group_data m = .error (.duplicateBinding b) :=
    get_eq_of_process_error herr
  refine ⟨⟨g, b, hget, ?_⟩, ?_⟩
  · rw [boundKeys_eq]
    simpa [accKeys] using hcount
  · intro r hr
    rw [hget] at hr
    cases hr

/-- C2 witness: the theorem applied to the concrete module with two
globals at group 0, binding 0. -/
theorem C2_witness :
    (∃ g b, get_bind_group_data dupModule = .error (.duplicateBinding b) ∧
      2 ≤ countPair (g, b) (boundKeys dupModule)) ∧
    ∀ r, get_bind_group_data dupModule ≠ .ok r :=
  C2_theorem dupModule ⟨0, 0, by decide⟩

/-- C3: whenever get_bind_group_data succeeds, the binding sequence stored
for each group equals the subsequence of bound globals declared with that
group index, in module declaration order, not sorted by binding index. -/
theorem C3_theorem (m : Module) (r : GroupMap)
    (h : get_bind_group_data m = .ok r) :
    ∀ g bs, (g, bs) ∈ r → bs = declBindings m g :=
  groups_decl_of_ok h

/-- C3 witness: in the module declaring binding 1 before binding 0 inside
group 0, the resolved bucket keeps that declaration order. -/
theorem C3_witness :
    [ toGroupBinding (uvar 0 1, { group := 0, binding := 1 })
    , toGroupBinding (uvar 0 0, { group := 0, binding := 0 }) ] =
      declBindings reorderModule 0 := by
  have h := C3_theorem reorderModule
      [ (0, [ toGroupBinding (uvar 0 1, { group := 0, binding := 1 })
            , toGroupBinding (uvar 0 0, { group := 0, binding := 0 }) ]) ]
      rfl
  exact h 0 _ (by simp)

/-- C9: resolution output is fully determined by the input module, with
canonical ordering: on success the group keys are strictly ascending, each
bucket equals the declaration-order bindings of its group, and each vertex
input struct carries its attributes in ascending location order. -/
theorem C9_theorem (m : Module) (r : GroupMap)
    (h : get_bind_group_data m = .ok r) :
    (keysOf r).Pairwise (· < ·) ∧
    (∀ g bs, (g, bs) ∈ r → bs = declBindings m g) ∧
    (∀ vi ∈ get_vertex_input_structs m,
      (vi.fields.map Prod.fst).Pairwise (· ≤ ·)) := by
  obtain ⟨hsort, hkeys, hrange, hbuck⟩ := get_bind_group_data_ok_char h
  refine ⟨hsort, groups_decl_of_ok h, ?_⟩
  intro vi hvi
  unfold get_vertex_input_structs at hvi
  rw [List.mem_flatMap] at hvi
  obtain ⟨e, he, hvi2⟩ := hvi
  rw [List.mem_map] at hvi2
  obtain ⟨s, hs, heq⟩ := hvi2
  subst heq
  rw [List.pairwise_map]
  exact sortByLoc_sorted s.fields

/-- C9 witness: the theorem applied to the concrete module with one bound
global and a vertex input struct declared with locations out of order. -/
theorem C9_witness :
    (keysOf [(0, [toGroupBinding (uvar 0 0, { group := 0, binding := 0 })])]).Pairwise (· < ·) ∧
    (∀ g bs, (g, bs) ∈
        [(0, [toGroupBinding (uvar 0 0, { group := 0, binding := 0 })])] →
      bs = declBindings vertexModule g) ∧
    (∀ vi ∈ get_vertex_input_structs vertexModule,
      (vi.fields.map Prod.fst).Pairwise (· ≤ ·)) :=
  C9_theorem vertexModule
    [(0, [toGroupBinding (uvar 0 0, { group := 0, binding := 0 })])]
    rfl

/-- C10: the duplicate check is scoped per group: under distinct
(group, binding) pairs and contiguous groups, get_bind_group_data
succeeds, and any two bound globals sharing a binding index but declared
in different groups both appear, each inside the bucket of its own group. -/
theorem C10_theorem (m : Module)
    (hnodup : (boundKeys m).Nodup)
    (hrange : sortedGroupKeys m = List.range (sortedGroupKeys m).length)
    (p q : GlobalVariable × ResourceBinding)
    (hp : p ∈ boundEntries m) (hq : q ∈ boundEntries m)
    (_hbind : p.2.binding = q.2.binding) (_hgroup : p.2.group ≠ q.2.group) :
    ∃ r, get_bind_group_data m = .ok r ∧
      (∃ bs, (p.2.group, bs) ∈ r ∧ toGroupBinding p ∈ bs) ∧
      (∃ bs, (q.2.group, bs) ∈ r ∧ toGroupBinding q ∈ bs) := by
  obtain ⟨r, hr, hsort, hkeys, hbuck⟩ := processGlobals_root_ok m hnodup
  have hlen : r.length = (sortedGroupKeys m).length := by
    rw [← hkeys]
    simp [keysOf]
  have hc : r.map Prod.fst = List.range r.length := by
    show keysOf r = List.range r.length
    rw [hkeys, hlen]
    exact hrange
  have hget : get_bind_group_data m = .ok r := by
    rw [get_eq_of_process_ok hr, if_pos hc]
  have key : ∀ x, x ∈ boundEntries m →
      ∃ bs, (x.2.group, bs) ∈ r ∧ toGroupBinding x ∈ bs := by
    intro x hx
    have hgi : x.2.group ∈ groupIndices m := by
      unfold groupIndices
      exact List.mem_map_of_mem _ hx
    have hgk : x.2.group ∈ keysOf r := by
      rw [hkeys]
      exact (sortedGroupKeys_mem m _).mpr hgi
    unfold keysOf at hgk
    rw [List.mem_map] at hgk
    obtain ⟨⟨g2, bs⟩, hmem, hfst⟩ := hgk
    have hfst2 : g2 = x.2.group := hfst
    subst hfst2
    refine ⟨bs, hmem, ?_⟩
    have hlk := mem_lookupGroup (keysOf_nodup_of_sorted hsort) hmem
    have hbv : bucketView r x.2.group = bs := by
      unfold bucketView
      rw [hlk]
      rfl
    rw [← hbv, hbuck]
    unfold declBindings declOf
    apply List.mem_map_of_mem
    apply List.mem_filter.mpr
    exact ⟨hx, by simp⟩
  exact ⟨r, hget, key p hp, key q hq⟩

/-- C10 witness: the theorem applied to the concrete module binding index
0 in group 0 and again in group 1. -/
theorem C10_witness :
    ∃ r, get_bind_group_data twoGroupModule = .ok r ∧
      (∃ bs, (0, bs) ∈ r ∧
        toGroupBinding (uvar 0 0, { group := 0, binding := 0 }) ∈ bs) ∧
      (∃ bs, (1, bs) ∈ r ∧
        toGroupBinding (uvar 1 0, { group := 1, binding := 0 }) ∈ bs) :=
  C10_theorem twoGroupModule (by decide) (by decide)
    (uvar 0 0, { group := 0, binding := 0 })
    (uvar 1 0, { group := 1, binding := 0 })
    (by decide) (by decide) (by decide) (by decide)

/-- C4 counterexample: a bound four-component float vector has no arm in
the classifier; the outcome is the catch-all panic whose fixed message
carries no type context, not an UnsupportedBindingType error value (the
error enum of the crate has no such variant). -/
theorem C4_counterexample :
    bind_group_layout_entry_ty
      { name := none, bindingIndex := 0
        bindingType :=
          { name := none, inner := .vector .quad { kind := .float, width := 4 } }
        addressSpace := .uniform } = .error .failedBindingType := rfl

/-- C4 (amended): every bound resource whose type has no arm in the
classifier (not a scalar, struct, array, image, or sampler) makes
bind_group_layout_entry panic through its catch-all arm with the fixed,
context-free message, rather than returning a recoverable
UnsupportedBindingType error; no such error exists in the crate. -/
theorem C4_theorem (gb : GroupBinding)
    (h : unmappedInner gb.bindingType.inner = true) :
    bind_group_layout_entry_ty gb = .error .failedBindingType := by
  obtain ⟨nm, bi, ⟨tn, inner⟩, sp⟩ := gb
  cases inner with
  | scalar s => simp [unmappedInner] at h
  | vector sz s => rfl
  | matrix c r s => rfl
  | atomic s => rfl
  | pointer => rfl
  | array => simp [unmappedInner] at h
  | struct => simp [unmappedInner] at h
  | image d a c => simp [unmappedInner] at h
  | sampler c => simp [unmappedInner] at h
  | accelerationStructure => rfl
  | bindingArray => rfl

/-- C4 witness: the amended theorem applied to a bound pointer type. -/
theorem C4_witness :
    bind_group_layout_entry_ty
      { name := none, bindingIndex := 0
        bindingType := { name := none, inner := TypeInner.pointer }
        addressSpace := .uniform } = .error .failedBindingType :=
  C4_theorem
    { name := none, bindingIndex := 0
      bindingType := { name := none, inner := TypeInner.pointer }
      addressSpace := .uniform } (by decide)

/-- C5 counterexample: with neither the read nor the write flag set,
storage_access hits a todo panic (a crash), not an InvalidState error
value surfaced to the caller; the error enum of the crate has no
InvalidState variant. -/
theorem C5_counterexample :
    storage_access { load := false, store := false } =
      .error .storageAccessTodo := rfl

/-- C5 (amended): the access mapping is both set to ReadWrite, read-only
to ReadOnly, write-only to WriteOnly; when neither flag is set the
function panics through a todo marked as unreachable, a crash rather than
a recoverable InvalidState error. -/
theorem C5_theorem :
    storage_access { load := true, store := true } = .ok .readWrite ∧
    storage_access { load := true, store := false } = .ok .readOnly ∧
    storage_access { load := false, store := true } = .ok .writeOnly ∧
    storage_access { load := false, store := false } =
      .error .storageAccessTodo :=
  ⟨rfl, rfl, rfl, rfl⟩

/-- C6 counterexample: the storage format named Rg11b10Float has no
equivalent name in the target format taxonomy, yet classification
succeeds, carrying the name verbatim; it does not fail with an
UnsupportedFormat error (no such error exists in the crate). -/
theorem C6_counterexample :
    ("Rg11b10Float" ∉ targetFormatTaxonomy) ∧
    bind_group_layout_entry_ty
      { name := none, bindingIndex := 0
        bindingType :=
          { name := none
            inner := .image .d2 false
              (.storage "Rg11b10Float" { load := true, store := false }) }
        addressSpace := .handle } =
      .ok (.storageTexture .readOnly "Rg11b10Float" .d2) := by
  constructor
  · decide
  · rfl

/-- C6 (amended): the pixel format of a storage-texture descriptor is
taken verbatim from the declared image storage format; the code performs
no check against the target format taxonomy and classification succeeds
for every declared format with well-formed access flags — there is no
UnsupportedFormat failure. -/
theorem C6_theorem (format : String) (dim : ImageDimension) (arrayed : Bool)
    (access : StorageAccess) (nm tn : Option String) (bi : Nat)
    (sp : AddressSpace)
    (h : access.load = true ∨ access.store = true) :
    ∃ sa, storage_access access = .ok sa ∧
      bind_group_layout_entry_ty
        { name := nm, bindingIndex := bi
          bindingType :=
            { name := tn, inner := .image dim arrayed (.storage format access) }
          addressSpace := sp } =
        .ok (.storageTexture sa format (viewDimension dim)) := by
  rcases access with ⟨l, st⟩
  cases l <;> cases st
  · rcases h with h | h <;> exact absurd h (by decide)
  · exact ⟨.writeOnly, rfl, rfl⟩
  · exact ⟨.readOnly, rfl, rfl⟩
  · exact ⟨.readWrite, rfl, rfl⟩

/-- C6 witness: the amended theorem applied to a read-write storage
texture with the format named Rgba8Uint. -/
theorem C6_witness :
    ∃ sa, storage_access { load := true, store := true } = .ok sa ∧
      bind_group_layout_entry_ty
        { name := none, bindingIndex := 0
          bindingType :=
            { name := none
              inner := .image .d2 false
                (.storage "Rgba8Uint" { load := true, store := true }) }
          addressSpace := .handle } =
        .ok (.storageTexture sa "Rgba8Uint" (viewDimension .d2)) :=
  C6_theorem "Rgba8Uint" .d2 false { load := true, store := true }
    none none 0 .handle (Or.inl rfl)

/-- C7: for image bindings, the sampled kinds Sint, Uint and Float map to
the same-named sample types (Float with filterable false), the Depth class
always yields the Depth sample type, the view dimension maps 1:1 and the
multisampled flag is carried verbatim; and a successful classification
yields the Texture variant exactly when the image class is not Storage,
and the StorageTexture variant exactly when it is. -/
theorem C7_theorem (nm tn : Option String) (bi : Nat) (sp : AddressSpace)
    (dim : ImageDimension) (arrayed multi : Bool) :
    (bind_group_layout_entry_ty
        { name := nm, bindingIndex := bi
          bindingType :=
            { name := tn, inner := .image dim arrayed (.sampled .sint multi) }
          addressSpace := sp } =
      .ok (.texture .sint (viewDimension dim) multi)) ∧
    (bind_group_layout_entry_ty
        { name := nm, bindingIndex := bi
          bindingType :=
            { name := tn, inner := .image dim arrayed (.sampled .uint multi) }
          addressSpace := sp } =
      .ok (.texture .uint (viewDimension dim) multi)) ∧
    (bind_group_layout_entry_ty
        { name := nm, bindingIndex := bi
          bindingType :=
            { name := tn, inner := .image dim arrayed (.sampled .float multi) }
          addressSpace := sp } =
      .ok (.texture (.float false) (viewDimension dim) multi)) ∧
    (bind_group_layout_entry_ty
        { name := nm, bindingIndex := bi
          bindingType :=
            { name := tn, inner := .image dim arrayed (.depth multi) }
          addressSpace := sp } =
      .ok (.texture .depth (viewDimension dim) multi)) ∧
    (∀ cls r, bind_group_layout_entry_ty
        { name := nm, bindingIndex := bi
          bindingType := { name := tn, inner := .image dim arrayed cls }
          addressSpace := sp } = .ok r →
      r.isTexture = !cls.isStorage ∧ r.isStorageTexture = cls.isStorage) := by
  refine ⟨rfl, rfl, rfl, rfl, ?_⟩
  intro cls r h
  cases cls with
  | sampled k m2 =>
    cases k with
    | sint =>
      injection h with h3
      subst h3
      exact ⟨rfl, rfl⟩
    | uint =>
      injection h with h3
      subst h3
      exact ⟨rfl, rfl⟩
    | float =>
      injection h with h3
      subst h3
      exact ⟨rfl, rfl⟩
    | bool => cases h
    | abstractInt => cases h
    | abstractFloat => cases h
  | depth m2 =>
    injection h with h3
    subst h3
    exact ⟨rfl, rfl⟩
  | storage fmt acc =>
    rcases acc with ⟨l, st⟩
    cases l <;> cases st
    · cases h
    · injection h with h3
      subst h3
      exact ⟨rfl, rfl⟩
    · injection h with h3
      subst h3
      exact ⟨rfl, rfl⟩
    · injection h with h3
      subst h3
      exact ⟨rfl, rfl⟩

/-- C7 witness: the theorem at a concrete two-dimensional signed-integer
sampled image. -/
theorem C7_witness :
    bind_group_layout_entry_ty
      { name := none, bindingIndex := 0
        bindingType :=
          { name := none, inner := .image .d2 false (.sampled .sint false) }
        addressSpace := .handle } =
      .ok (.texture .sint (viewDimension .d2) false) :=
  (C7_theorem none none 0 .handle .d2 false false).1

instance {ε α : Type} [DecidableEq ε] [DecidableEq α] :
    DecidableEq (Except ε α) := fun a b =>
  match a, b with
  | .ok x, .ok y =>
    if h : x = y then isTrue (by rw [h])
    else isFalse (by intro hh; injection hh; exact h ‹x = y›)
  | .error x, .error y =>
    if h : x = y then isTrue (by rw [h])
    else isFalse (by intro hh; injection hh; exact h ‹x = y›)
  | .ok _, .error _ => isFalse (by intro hh; cases hh)
  | .error _, .ok _ => isFalse (by intro hh; cases hh)

/-- The covered matrix of the vertex format derivation: the four covered
scalar shapes paired with each component count from 1 to 4. -/
def coveredTable : List (Scalar × Nat) :=
  [ ({ kind := .float, width := 4 }, 1), ({ kind := .float, width := 4 }, 2)
  , ({ kind := .float, width := 4 }, 3), ({ kind := .float, width := 4 }, 4)
  , ({ kind := .float, width := 8 }, 1), ({ kind := .float, width := 8 }, 2)
  , ({ kind := .float, width := 8 }, 3), ({ kind := .float, width := 8 }, 4)
  , ({ kind := .sint, width := 4 }, 1), ({ kind := .sint, width := 4 }, 2)
  , ({ kind := .sint, width := 4 }, 3), ({ kind := .sint, width := 4 }, 4)
  , ({ kind := .uint, width := 4 }, 1), ({ kind := .uint, width := 4 }, 2)
  , ({ kind := .uint, width := 4 }, 3), ({ kind := .uint, width := 4 }, 4) ]

set_option maxHeartbeats 2000000 in
theorem scalarVertexFormat_ok_iff (k : ScalarKind) (w n : Nat) :
    (∃ f, scalarVertexFormat { kind := k, width := w } n = .ok f) ↔
      (((k = .float ∧ (w = 4 ∨ w = 8)) ∨ ((k = .sint ∨ k = .uint) ∧ w = 4)) ∧
        (1 ≤ n ∧ n ≤ 4)) := by
  cases k <;> simp only [scalarVertexFormat] <;> split_ifs <;>
    simp_all <;> omega

set_option maxHeartbeats 2000000 in
theorem scalarVertexFormat_total (k : ScalarKind) (w n : Nat) :
    (∃ f, scalarVertexFormat { kind := k, width := w } n = .ok f) ∨
      scalarVertexFormat { kind := k, width := w } n =
        .error .unsupportedVertexFormat := by
  cases k <;> simp only [scalarVertexFormat] <;> split_ifs <;> simp

/-- C8 (spec-modelled): the vertex format derivation is total over exactly
the covered matrix: a scalar shape with a component count succeeds exactly
when the shape is 32-bit float, 64-bit float, signed 32-bit integer or
unsigned 32-bit integer and the count lies in 1..4; every outcome is
either such a success or the UnsupportedVertexFormat error; two-component
32-bit float yields Float32x2; and the sixteen covered combinations yield
sixteen pairwise distinct format tags. -/
theorem C8_theorem :
    (∀ (k : ScalarKind) (w n : Nat),
      (∃ f, scalarVertexFormat { kind := k, width := w } n = .ok f) ↔
        (((k = .float ∧ (w = 4 ∨ w = 8)) ∨ ((k = .sint ∨ k = .uint) ∧ w = 4)) ∧
          (1 ≤ n ∧ n ≤ 4))) ∧
    (∀ (k : ScalarKind) (w n : Nat),
      (∃ f, scalarVertexFormat { kind := k, width := w } n = .ok f) ∨
        scalarVertexFormat { kind := k, width := w } n =
          .error .unsupportedVertexFormat) ∧
    scalarVertexFormat { kind := .float, width := 4 } 2 = .ok .float32x2 ∧
    (coveredTable.map fun c => scalarVertexFormat c.1 c.2).Nodup := by
  exact ⟨scalarVertexFormat_ok_iff, scalarVertexFormat_total, rfl, by decide⟩

end WgslBindgen
